import Mathlib

/-!
Verification development for the `vscode-smart-paste` extension
(`src/extension.ts`).  The extension's logic is embedded shallowly:

* JavaScript strings are modelled as Lean `String`s (lists of characters);
  `Array.prototype.slice` / `String.prototype.slice` / `trim` / `split` /
  `join` are embedded as executable Lean functions with JS semantics.
* `AiPasteProvider.provideDocumentPasteEdits` is embedded as a pure function
  of the data it inspects (clipboard payload, sidecar metadata payload,
  model-selection result, and the cancellation-token observations at its
  three checkpoints).  The host-provided `JSON.parse` is abstracted as a
  fallible parser parameter; the `try`/`catch` around metadata parsing is
  embedded by the parser returning `none` on failure.
* `AiPasteProvider.resolveDocumentPasteEdit` is embedded as a pure function
  of the streamed chunks, the stream-error flag, and the cancellation-token
  observations at each checkpoint; its result is `some newCode` when a
  workspace edit is attached to the candidate and `none` when the operation
  is abandoned with no edit attached.
* Documents are modelled by their full text with the first paste range given
  as a pair of character offsets, so `document.getText` of the two ranges
  used by `getPasteContext` becomes `take`/`drop` on the text.
-/

/- ## JS string primitives -/

/-- Embeds `s.startsWith`-style matching on character lists: `startsWithL s p`
is `true` iff `p` is an initial segment of `s`. -/
def startsWithL : List Char → List Char → Bool
  | _, [] => true
  | [], _ :: _ => false
  | c :: s, p :: ps => (decide (c = p)) && startsWithL s ps

/-- `containsL s pat` is `true` iff `pat` occurs contiguously inside `s`
(JS `String.prototype.includes`). -/
def containsL : List Char → List Char → Bool
  | [], pat => pat.isEmpty
  | c :: s, pat => startsWithL (c :: s) pat || containsL s pat

/-- Substring containment on strings. -/
def strContains (s pat : String) : Bool :=
  containsL s.data pat.data

/-- Embeds `Array.prototype.join(sep)`. -/
def joinWith (sep : String) : List String → String
  | [] => ""
  | [s] => s
  | s :: rest => s ++ sep ++ joinWith sep rest

/-- Embeds the source helper `joinLines(...lines) = lines.join('\n')`
(`extension.ts` line 153). -/
def joinLines (lines : List String) : String :=
  joinWith "\n" lines

/-- Concatenation of a list of strings, used to state that two chunkings of a
stream carry the same overall response text. -/
def concatAll : List String → String
  | [] => ""
  | s :: rest => s ++ concatAll rest

/-- The ECMAScript whitespace set used by `String.prototype.trim`
(WhiteSpace and LineTerminator code points). -/
def jsWhitespace (c : Char) : Bool :=
  c.toNat ∈ [9, 10, 11, 12, 13, 32, 160, 5760, 8192, 8193, 8194, 8195, 8196,
    8197, 8198, 8199, 8200, 8201, 8202, 8232, 8233, 8239, 8287, 12288, 65279]

/-- Embeds `String.prototype.trim`: drop leading and trailing whitespace. -/
def jsTrim (s : String) : String :=
  String.mk (((s.data.dropWhile jsWhitespace).reverse.dropWhile jsWhitespace).reverse)

/-- Embeds `response.split(/\r\n|\r|\n/)` (`extension.ts` line 118): the
regex matches `\r\n` in preference to `\r` or `\n` at each position.
`acc` holds the characters of the current line in reverse. -/
def splitLinesAux : List Char → List Char → List (List Char)
  | [], acc => [acc.reverse]
  | '\r' :: '\n' :: rest, acc => acc.reverse :: splitLinesAux rest []
  | '\r' :: rest, acc => acc.reverse :: splitLinesAux rest []
  | '\n' :: rest, acc => acc.reverse :: splitLinesAux rest []
  | c :: rest, acc => splitLinesAux rest (c :: acc)

/-- Split a string into its lines at `\r\n`, `\r` or `\n`. -/
def splitLines (s : String) : List String :=
  (splitLinesAux s.data []).map fun l => String.mk l

/-- Embeds `arr.slice(1, -1)` (`extension.ts` line 119): all elements except
the first and the last; empty when the array has at most one element. -/
def sliceDropEnds {α : Type} (l : List α) : List α :=
  (l.drop 1).dropLast

/-- Embeds `s.slice(-n)` for `n > 0`: the last `min n (length s)`
characters of `s`. -/
def jsSliceLast (s : String) (n : Nat) : String :=
  String.mk (s.data.drop (s.data.length - n))

/-- Embeds `s.slice(n)` for `n ≥ 0`: `s` with its first `n` characters
removed. -/
def jsSliceFrom (s : String) (n : Nat) : String :=
  String.mk (s.data.drop n)

/- ## Data model -/

/-- `interface CopyMetadata` (`extension.ts` lines 6-8). -/
structure CopyMetadata where
  sourceLanguage : String
deriving DecidableEq

/-- Opaque handle for a `vscode.LanguageModelChat` returned by
`vscode.lm.selectChatModels`. -/
structure ChatModel where
  id : Nat
deriving DecidableEq

/-- The data carried by a `SmartPasteEdit` candidate (`extension.ts` lines
13-24) that the provider logic inspects; the target document and ranges are
threaded through unchanged and are supplied separately to the functions
below that read them. -/
structure SmartPasteEdit where
  text : String
  metadata : Option CopyMetadata
  model : ChatModel
deriving DecidableEq

/- ## provideDocumentPasteEdits -/

/-- The data `provideDocumentPasteEdits` (`extension.ts` lines 36-63) reads
from its environment:

* `plainText`: result of `dataTransfer.get('text/plain')?.asString()`
  (`none` when the entry is absent);
* `metadataItem`: the raw sidecar payload string under the private mime
  type, when present;
* `models`: the list returned by
  `vscode.lm.selectChatModels({ family: 'gpt-4' })`;
* the three booleans: the value of `token.isCancellationRequested` at the
  checkpoint on line 38, line 51, and line 56 respectively. -/
structure ProvideInput where
  plainText : Option String
  metadataItem : Option String
  models : List ChatModel
  cancelledAtTextCheck : Bool
  cancelledBeforeModelQuery : Bool
  cancelledAfterModelQuery : Bool

/-- Result of `provideDocumentPasteEdits` together with whether the
model-selection query (`vscode.lm.selectChatModels`, line 55) was issued. -/
structure ProvideResult where
  edits : Option (List SmartPasteEdit)
  modelQueryPerformed : Bool
deriving DecidableEq

/-- Embeds `AiPasteProvider.provideDocumentPasteEdits` (`extension.ts`
lines 36-63).  `parseMetadata` abstracts `JSON.parse` followed by the cast
to `CopyMetadata`; the `try`/`catch` on lines 43-50 is embedded by a failed
parse yielding `none`, leaving `metadata` undefined.  JS truthiness `!text`
on line 38 rejects both a missing entry and the empty string. -/
def provideDocumentPasteEdits (inp : ProvideInput)
    (parseMetadata : String → Option CopyMetadata) : ProvideResult :=
  match inp.plainText with
  | none => ⟨none, false⟩
  | some text =>
    if text == "" || inp.cancelledAtTextCheck then ⟨none, false⟩
    else
      let metadata : Option CopyMetadata :=
        match inp.metadataItem with
        | some raw => parseMetadata raw
        | none => none
      if inp.cancelledBeforeModelQuery then ⟨none, false⟩
      else
        if inp.cancelledAfterModelQuery then ⟨none, true⟩
        else
          match inp.models with
          | [] => ⟨none, true⟩
          | m :: _ => ⟨some [⟨text, metadata, m⟩], true⟩

/- ## getPasteContext -/

/-- `const maxLen = 1000` (`extension.ts` line 129). -/
def maxLen : Nat := 1000

/-- Embeds `AiPasteProvider.getPasteContext` (`extension.ts` lines
128-136).  The document is its full text `docText`; the first range is the
character-offset pair `rangeStart`, `rangeEnd`, so
`document.getText(new Range(0, 0, start))` is `take rangeStart` and
`document.getText(new Range(end, MAX_SAFE_INTEGER, 0))` is
`drop rangeEnd`.  `pre` uses `.slice(-maxLen)`; `post` uses
`.slice(maxLen)`. -/
def getPasteContext (docText : String) (rangeStart rangeEnd : Nat) : Option String :=
  let pre := jsSliceLast (String.mk (docText.data.take rangeStart)) maxLen
  let post := jsSliceFrom (String.mk (docText.data.drop rangeEnd)) maxLen
  if pre.length != 0 || post.length != 0 then
    some (pre ++ "<<CURSOR>>" ++ post)
  else
    none

/-- Modelled from the spec: the context-excerpt extraction whose suffix is
"up to 1000 characters of document text immediately following the first
range's end" (spec section 4.3), i.e. `post.slice(0, maxLen)`; compared
against `getPasteContext` above, which the source implements with
`.slice(maxLen)`. -/
def getPasteContextSpec (docText : String) (rangeStart rangeEnd : Nat) : Option String :=
  let pre := jsSliceLast (String.mk (docText.data.take rangeStart)) maxLen
  let post := String.mk ((docText.data.drop rangeEnd).take maxLen)
  if pre.length != 0 || post.length != 0 then
    some (pre ++ "<<CURSOR>>" ++ post)
  else
    none

/- ## Prompt construction (resolveDocumentPasteEdit, lines 68-98) -/

/-- Role tag of a `vscode.LanguageModelChatMessage`. -/
inductive ChatRole where
  | assistant
  | user
deriving DecidableEq

/-- A role-tagged prompt message. -/
structure ChatMessage where
  role : ChatRole
  content : String
deriving DecidableEq

/-- The interpolated line on `extension.ts` line 73:
`` `You job is to translate the user's code ${metadata ? 'from ' +
metadata.sourceLanguage + `into ${edit.document.languageId}` : ''} so it
can be used in this new context.` `` -/
def instructionLine (metadata : Option CopyMetadata) (destLanguageId : String) : String :=
  "You job is to translate the user\x27s code " ++
    (match metadata with
      | some m => "from " ++ m.sourceLanguage ++ "into " ++ destLanguageId
      | none => "") ++
    " so it can be used in this new context."

/-- The system-instruction message content (`extension.ts` lines 69-79). -/
def systemMessage (metadata : Option CopyMetadata) (destLanguageId : String) : String :=
  joinLines [
    "You are an AI coding assistant that helps translate code.",
    "The user will supply you with code to be translated so it can be used in a new location.",
    "The user may also provide you with a code context excerpt showing the new location where the translated code will be used.",
    instructionLine metadata destLanguageId,
    "If a code context excerpt is provided, use it to guide your translation. Your translation should follow the naming conventions, formatting style, documentation usage, and other coding conventions of the provided code context.",
    "Make sure your translation is syntactically correct.",
    "Reply with only the translated code in a markdown fenced code block.",
    "DO NOT explain.",
    "DO NOT include any extra text before or after the fenced code block."
  ]

/-- The optional context message content (`extension.ts` lines 83-89). -/
def contextMessage (destLanguageId ctx : String) : String :=
  joinLines [
    "Here\x27s an code excerpt showing where the translated code will be used. My code will be inserted at `<<CURSOR>>`:",
    "",
    "```" ++ destLanguageId,
    ctx,
    "```"
  ]

/-- The user message carrying the copied text (`extension.ts` lines 92-98);
`metadata?.sourceLanguage || ''` falls back to the empty tag. -/
def userCodeMessage (metadata : Option CopyMetadata) (copiedText : String) : String :=
  joinLines [
    "Please translate the following code:",
    "",
    "```" ++ (match metadata with
      | some m => m.sourceLanguage
      | none => ""),
    copiedText,
    "```"
  ]

/-- The full prompt built by `resolveDocumentPasteEdit` (`extension.ts`
lines 68-98): the system instruction, then the context message when
`getPasteContext` returns one, then the fenced copied text. -/
def buildMessages (metadata : Option CopyMetadata) (docText : String)
    (rangeStart rangeEnd : Nat) (destLanguageId copiedText : String) : List ChatMessage :=
  [⟨ChatRole.assistant, systemMessage metadata destLanguageId⟩] ++
    (match getPasteContext docText rangeStart rangeEnd with
      | some ctx => [⟨ChatRole.user, contextMessage destLanguageId ctx⟩]
      | none => []) ++
    [⟨ChatRole.user, userCodeMessage metadata copiedText⟩]

/- ## Stream consumption and post-processing (lines 100-125) -/

/-- Embeds lines 117-119: `parts.join('').trim()`, split into lines,
`slice(1, -1)`, rejoined with `'\n'`. -/
def postProcessResponse (parts : List String) : String :=
  joinLines (sliceDropEnds (splitLines (jsTrim (joinWith "" parts))))

/-- Embeds the `parts.push(message)` accumulation of the `for await` loop
(lines 105-112) followed by `parts.join('')` (line 117), starting from the
empty `parts` array. -/
def accumulateParts (chunks : List String) : List String :=
  chunks.foldl (fun parts m => parts ++ [m]) []

/-- The data `resolveDocumentPasteEdit` (`extension.ts` lines 65-126) reads
from its environment after the prompt is built:

* `cancelledAfterSend`: `token.isCancellationRequested` at the checkpoint
  on line 101, after `sendRequest`;
* `chunks`: the text chunks the response stream yields, in order, before
  it either completes or throws;
* `streamErrored`: whether the stream iteration throws (after yielding
  `chunks`), caught on line 113;
* `cancelledAfterChunk i`: `token.isCancellationRequested` at the
  checkpoint on line 109 reached after pushing chunk `i`. -/
structure ResolveInput where
  cancelledAfterSend : Bool
  chunks : List String
  streamErrored : Bool
  cancelledAfterChunk : Nat → Bool

/-- The `for await` loop of lines 105-112: push each chunk onto `parts`,
then return `none` (abandon) if cancellation is observed; otherwise return
the accumulated `parts`. -/
def consumeChunks (cancelled : Nat → Bool) :
    List String → Nat → List String → Option (List String)
  | [], _, parts => some parts
  | m :: rest, i, parts =>
    let parts2 := parts ++ [m]
    if cancelled i then none else consumeChunks cancelled rest (i + 1) parts2

/-- Embeds `AiPasteProvider.resolveDocumentPasteEdit` from the checkpoint
after `sendRequest` (lines 100-125).  `some newCode` means the function
reaches lines 121-125 and attaches the workspace edit whose snippet text is
`newCode`; `none` means it returns early and no edit is attached. -/
def resolveDocumentPasteEdit (inp : ResolveInput) : Option String :=
  if inp.cancelledAfterSend then none
  else
    match consumeChunks inp.cancelledAfterChunk inp.chunks 0 [] with
    | none => none
    | some parts => if inp.streamErrored then none else some (postProcessResponse parts)

/- ## Helper lemmas -/

theorem startsWithL_self_append (pat y : List Char) : startsWithL (pat ++ y) pat = true := by
  induction pat with
  | nil => simp [startsWithL]
  | cons p ps ih => simp [startsWithL, ih]

theorem containsL_here (pat y : List Char) : containsL (pat ++ y) pat = true := by
  cases pat with
  | nil => cases y <;> simp [containsL, startsWithL, List.isEmpty]
  | cons p ps => simp [containsL, startsWithL, startsWithL_self_append]

theorem containsL_append_left (x s pat : List Char) (h : containsL s pat = true) :
    containsL (x ++ s) pat = true := by
  induction x with
  | nil => simpa
  | cons c cs ih => simp [containsL]; right; exact ih

theorem strContains_here (pat y : String) : strContains (pat ++ y) pat = true := by
  simpa [strContains, String.data_append] using containsL_here pat.data y.data

theorem strContains_left (x s pat : String) (h : strContains s pat = true) :
    strContains (x ++ s) pat = true := by
  simpa [strContains, String.data_append] using containsL_append_left x.data s.data pat.data h

theorem splitLinesAux_no_cr (l acc : List Char) (h : '\r' ∉ acc) :
    ∀ s ∈ splitLinesAux l acc, '\r' ∉ s := by
  induction l, acc using splitLinesAux.induct <;> simp_all [splitLinesAux]
  rename_i hne1 hne2 ih
  exact ih fun e => hne1 e.symm

theorem splitLines_no_cr (x : String) : ∀ s ∈ splitLines x, '\r' ∉ s.data := by
  intro s hs
  simp only [splitLines, List.mem_map] at hs
  obtain ⟨l, hl, rfl⟩ := hs
  exact splitLinesAux_no_cr x.data [] (by simp) l hl

theorem sliceDropEnds_mem {α : Type} {s : α} {l : List α}
    (h : s ∈ sliceDropEnds l) : s ∈ l := by
  have h2 : s ∈ l.drop 1 := List.dropLast_subset _ h
  exact List.drop_subset 1 l h2

theorem sliceDropEnds_short {α : Type} (l : List α) (h : l.length ≤ 1) :
    sliceDropEnds l = [] := by
  match l with
  | [] => rfl
  | [a] => rfl
  | a :: b :: rest => simp at h

theorem sliceDropEnds_concat {α : Type} (a b : α) (mid : List α) :
    sliceDropEnds (a :: (mid ++ [b])) = mid := by
  simp [sliceDropEnds]

theorem joinWith_newline_no_cr (ls : List String) (h : ∀ s ∈ ls, '\r' ∉ s.data) :
    '\r' ∉ (joinWith "\n" ls).data := by
  induction ls with
  | nil => simp [joinWith]
  | cons s rest ih =>
    cases rest with
    | nil => simpa [joinWith] using h s (by simp)
    | cons r rs =>
      have hs := h s (by simp)
      have hrest := ih fun t ht => h t (by simp [ht])
      intro hc
      simp only [joinWith, String.data_append, List.mem_append] at hc
      rcases hc with (hc | hc) | hc
      · exact hs hc
      · exact absurd hc (by decide)
      · exact hrest hc

theorem consumeChunks_never_cancelled (l : List String) :
    ∀ (i : Nat) (acc : List String),
      consumeChunks (fun _ => false) l i acc = some (acc ++ l) := by
  induction l with
  | nil => intro i acc; simp [consumeChunks]
  | cons m rest ih => intro i acc; simp [consumeChunks, ih]

theorem consumeChunks_cancelled (cancelled : Nat → Bool) (l : List String) :
    ∀ (i : Nat) (acc : List String),
      (∃ j, j < l.length ∧ cancelled (i + j) = true) →
      consumeChunks cancelled l i acc = none := by
  induction l with
  | nil => intro i acc h; obtain ⟨j, hj, _⟩ := h; simp at hj
  | cons m rest ih =>
    intro i acc h
    obtain ⟨j, hj, hcj⟩ := h
    cases hc : cancelled i with
    | true => simp [consumeChunks, hc]
    | false =>
      simp only [consumeChunks, hc, if_neg Bool.false_ne_true]
      cases j with
      | zero => rw [Nat.add_zero] at hcj; rw [hcj] at hc; exact absurd hc (by simp)
      | succ j2 =>
        apply ih
        refine ⟨j2, by simpa using hj, ?_⟩
        have : i + 1 + j2 = i + (j2 + 1) := by omega
        rw [this]
        exact hcj

theorem accumulateParts_eq (chunks : List String) : accumulateParts chunks = chunks := by
  have general : ∀ (l acc : List String),
      l.foldl (fun parts m => parts ++ [m]) acc = acc ++ l := by
    intro l
    induction l with
    | nil => intro acc; simp
    | cons m rest ih => intro acc; simp [ih]
  simpa [accumulateParts] using general chunks []

theorem joinWith_empty_sep (l : List String) : joinWith "" l = concatAll l := by
  induction l with
  | nil => rfl
  | cons s rest ih =>
    cases rest with
    | nil => simp [joinWith, concatAll, String.append_empty]
    | cons r rs =>
      simp only [joinWith, concatAll] at ih ⊢
      rw [String.append_empty, ih]

/- ## Claim theorems -/

/-- Claim C1 (code-bug evidence): at the failing input — document text
`"hello"` with the first range at character offsets `(0, 0)`, i.e. a paste
at the very start of the document — the source's `getPasteContext` returns
no context at all, because the suffix is computed with `.slice(maxLen)`
(dropping the first 1000 characters of the post-range text) instead of
taking up to 1000 characters immediately following the range end, so the
five-character suffix text is discarded; the spec-modelled extraction
returns `"<<CURSOR>>hello"`. -/
theorem c1_suffix_slice_bug :
    getPasteContext "hello" 0 0 = none ∧
    getPasteContextSpec "hello" 0 0 = some "<<CURSOR>>hello" := by
  constructor
  · decide
  · decide

/-- Claim C2 (amended): the first message of the constructed prompt is the
system instruction; it mentions both the source language and the
destination document's language identifier when the candidate carries copy
metadata, but when there is no copy metadata it mentions neither — the
instruction is then a fixed string that does not depend on the destination
language at all. -/
theorem c2_system_message_languages :
    (∀ (metadata : Option CopyMetadata) (docText : String) (rangeStart rangeEnd : Nat)
        (destLanguageId copiedText : String),
      (buildMessages metadata docText rangeStart rangeEnd destLanguageId copiedText).head? =
        some ⟨ChatRole.assistant, systemMessage metadata destLanguageId⟩) ∧
    (∀ src dest : String,
      strContains (systemMessage (some ⟨src⟩) dest) src = true ∧
      strContains (systemMessage (some ⟨src⟩) dest) dest = true) ∧
    (∀ d1 d2 : String, systemMessage none d1 = systemMessage none d2) := by
  refine ⟨fun _ _ _ _ _ _ => rfl, fun src dest => ⟨?_, ?_⟩, fun d1 d2 => rfl⟩
  · simp only [systemMessage, joinLines, joinWith, instructionLine, String.append_assoc]
    repeat first
      | exact strContains_here _ _
      | apply strContains_left
  · simp only [systemMessage, joinLines, joinWith, instructionLine, String.append_assoc]
    repeat first
      | exact strContains_here _ _
      | apply strContains_left

set_option maxRecDepth 40000 in
/-- Claim C2 counterexample: for a resolution with no copy metadata and
destination language identifier `"javascript"`, the first
(system-instruction) message of the constructed prompt does not mention
`"javascript"`, refuting the claim that it always mentions the destination
document's language identifier. -/
theorem c2_dest_language_not_mentioned :
    (buildMessages none "" 0 0 "javascript" "x").head? =
      some ⟨ChatRole.assistant, systemMessage none "javascript"⟩ ∧
    strContains (systemMessage none "javascript") "javascript" = false := by
  exact ⟨rfl, by decide⟩

/-- Claim C3: the final translated text is obtained by joining the streamed
fragments, trimming, splitting into lines, dropping exactly the first and
last line, and rejoining with newlines; in particular, for any chunking of
the response whose first line is ```` ```js ````, middle line is
`function f(x) { return x + 1; }` and last line is ```` ``` ````, the
resolved edit text is exactly the middle line. -/
theorem c3_fence_stripping :
    (∀ (parts : List String) (ln1 ln2 : String) (mid : List String),
        splitLines (jsTrim (joinWith "" parts)) = ln1 :: (mid ++ [ln2]) →
        postProcessResponse parts = joinLines mid) ∧
    (∀ chunks : List String,
        joinWith "" chunks = "```js\nfunction f(x) \x7b return x + 1; \x7d\n```" →
        resolveDocumentPasteEdit ⟨false, chunks, false, fun _ => false⟩ =
          some "function f(x) \x7b return x + 1; \x7d") := by
  constructor
  · intro parts ln1 ln2 mid h
    simp only [postProcessResponse, h, sliceDropEnds_concat]
  · intro chunks h
    have hc := consumeChunks_never_cancelled chunks 0 []
    simp only [resolveDocumentPasteEdit, hc, List.nil_append, Bool.false_eq_true,
      if_false, postProcessResponse, h]
    decide

/-- Witness for C3: a one-chunk stream carrying the fenced scenario response
resolves to exactly the middle line, and a three-line response drops its
first and last lines. -/
theorem c3_fence_stripping_witness :
    postProcessResponse ["a\nb\nc"] = joinLines ["b"] ∧
    resolveDocumentPasteEdit
        ⟨false, ["```js\nfunction f(x) \x7b return x + 1; \x7d\n```"], false, fun _ => false⟩ =
      some "function f(x) \x7b return x + 1; \x7d" :=
  ⟨c3_fence_stripping.1 ["a\nb\nc"] "a" "c" ["b"] (by decide),
   c3_fence_stripping.2 ["```js\nfunction f(x) \x7b return x + 1; \x7d\n```"] rfl⟩

/-- Claim C4: when the stream yields zero chunks, or the trimmed response
has at most one line, the first-and-last-line stripping yields the empty
string (the embedding is total, so no exception can arise). -/
theorem c4_short_response_empty (parts : List String)
    (h : parts = [] ∨ (splitLines (jsTrim (joinWith "" parts))).length ≤ 1) :
    postProcessResponse parts = "" := by
  rcases h with rfl | h
  · decide
  · simp only [postProcessResponse]
    rw [sliceDropEnds_short _ h]
    rfl

/-- Witness for C4: the zero-chunk stream yields the empty final text. -/
theorem c4_witness : postProcessResponse [] = "" :=
  c4_short_response_empty [] (Or.inl rfl)

/-- Claim C5: if cancellation is observed at the checkpoint after sending
the request or at the checkpoint after accumulating any streamed chunk, or
the stream iteration throws, then `resolveDocumentPasteEdit` returns `none`
and no workspace edit is attached to the candidate. -/
theorem c5_no_partial_edit (inp : ResolveInput)
    (h : inp.cancelledAfterSend = true ∨
      (∃ i, i < inp.chunks.length ∧ inp.cancelledAfterChunk i = true) ∨
      inp.streamErrored = true) :
    resolveDocumentPasteEdit inp = none := by
  rcases h with h | h | h
  · simp [resolveDocumentPasteEdit, h]
  · have hc := consumeChunks_cancelled inp.cancelledAfterChunk inp.chunks 0 [] (by simpa using h)
    cases hb : inp.cancelledAfterSend <;> simp [resolveDocumentPasteEdit, hb, hc]
  · cases hb : inp.cancelledAfterSend <;>
      cases hr : consumeChunks inp.cancelledAfterChunk inp.chunks 0 [] <;>
      simp [resolveDocumentPasteEdit, hb, hr, h]

/-- Witness for C5: cancellation observed right after `sendRequest` yields
no edit. -/
theorem c5_witness :
    resolveDocumentPasteEdit ⟨true, [], false, fun _ => false⟩ = none :=
  c5_no_partial_edit ⟨true, [], false, fun _ => false⟩ (Or.inl rfl)

/-- Claim C6: when the transferred data has no plain-text entry, or an
empty plain-text string, `provideDocumentPasteEdits` produces no paste-edit
candidate. -/
theorem c6_no_plain_text_no_candidate (inp : ProvideInput)
    (parseMetadata : String → Option CopyMetadata)
    (h : inp.plainText = none ∨ inp.plainText = some "") :
    (provideDocumentPasteEdits inp parseMetadata).edits = none := by
  rcases h with h | h <;> simp [provideDocumentPasteEdits, h]

/-- Witness for C6: a transfer without a plain-text entry yields no
candidate. -/
theorem c6_witness :
    (provideDocumentPasteEdits ⟨none, none, [], false, false, false⟩ (fun _ => none)).edits =
      none :=
  c6_no_plain_text_no_candidate ⟨none, none, [], false, false, false⟩ (fun _ => none)
    (Or.inl rfl)

/-- Claim C7: if the token is already signalled at the checkpoint preceding
model selection, no candidate is produced and the model-selection query is
not performed (chat requests are issued only by `resolveDocumentPasteEdit`,
which the host invokes only on a produced candidate); likewise no candidate
is produced when model selection returns no matching model. -/
theorem c7_cancelled_or_no_model_no_candidate (inp : ProvideInput)
    (parseMetadata : String → Option CopyMetadata) :
    (inp.cancelledBeforeModelQuery = true →
      provideDocumentPasteEdits inp parseMetadata = ⟨none, false⟩) ∧
    (inp.models = [] →
      (provideDocumentPasteEdits inp parseMetadata).edits = none) := by
  constructor
  · intro h
    cases hp : inp.plainText with
    | none => simp [provideDocumentPasteEdits, hp]
    | some t =>
      cases hb : (t == "" || inp.cancelledAtTextCheck) <;>
        simp [provideDocumentPasteEdits, hp, hb, h]
  · intro h
    cases hp : inp.plainText with
    | none => simp [provideDocumentPasteEdits, hp]
    | some t =>
      cases hb : (t == "" || inp.cancelledAtTextCheck) <;>
        cases h2 : inp.cancelledBeforeModelQuery <;>
        cases h3 : inp.cancelledAfterModelQuery <;>
        simp [provideDocumentPasteEdits, hp, hb, h2, h3, h]

/-- Witness for C7: a cancelled operation yields no candidate and performs
no model query; an operation with no matching model yields no candidate. -/
theorem c7_witness :
    provideDocumentPasteEdits ⟨some "code", none, [⟨0⟩], false, true, false⟩ (fun _ => none) =
      ⟨none, false⟩ ∧
    (provideDocumentPasteEdits ⟨some "code", none, [], false, false, false⟩
        (fun _ => none)).edits = none :=
  ⟨(c7_cancelled_or_no_model_no_candidate ⟨some "code", none, [⟨0⟩], false, true, false⟩
      (fun _ => none)).1 rfl,
   (c7_cancelled_or_no_model_no_candidate ⟨some "code", none, [], false, false, false⟩
      (fun _ => none)).2 rfl⟩

/-- Claim C8: when the sidecar metadata payload fails to parse, the
provider proceeds exactly as if no metadata were present — the whole result
(candidate and all) is the same as for a transfer without the sidecar
payload, and the failure is swallowed rather than propagated (the embedding
returns a `ProvideResult` in every case). -/
theorem c8_metadata_parse_failure_ignored (inp : ProvideInput)
    (parseMetadata : String → Option CopyMetadata) (raw : String)
    (h1 : inp.metadataItem = some raw) (h2 : parseMetadata raw = none) :
    provideDocumentPasteEdits inp parseMetadata =
      provideDocumentPasteEdits { inp with metadataItem := none } parseMetadata := by
  cases hp : inp.plainText <;> simp [provideDocumentPasteEdits, hp, h1, h2]

/-- Witness for C8: a malformed sidecar payload produces the same result as
no sidecar payload. -/
theorem c8_witness :
    provideDocumentPasteEdits ⟨some "code", some "notjson", [⟨0⟩], false, false, false⟩
        (fun _ => none) =
      provideDocumentPasteEdits ⟨some "code", none, [⟨0⟩], false, false, false⟩
        (fun _ => none) :=
  c8_metadata_parse_failure_ignored ⟨some "code", some "notjson", [⟨0⟩], false, false, false⟩
    (fun _ => none) "notjson" rfl rfl

/-- Claim C9: two chunkings of the same response text produce the same
accumulated response (push each chunk, join with the empty separator), and
hence the same final post-processed text: the result is independent of
chunk boundaries. -/
theorem c9_chunk_boundary_independence (chunks1 chunks2 : List String)
    (h : concatAll chunks1 = concatAll chunks2) :
    joinWith "" (accumulateParts chunks1) = joinWith "" (accumulateParts chunks2) ∧
    postProcessResponse (accumulateParts chunks1) =
      postProcessResponse (accumulateParts chunks2) := by
  have e1 : joinWith "" (accumulateParts chunks1) = joinWith "" (accumulateParts chunks2) := by
    rw [accumulateParts_eq, accumulateParts_eq, joinWith_empty_sep, joinWith_empty_sep, h]
  refine ⟨e1, ?_⟩
  simp only [postProcessResponse, e1]

/-- Witness for C9: the chunkings `["ab"]` and `["a", "b"]` of the same
text accumulate to the same response. -/
theorem c9_witness :
    joinWith "" (accumulateParts ["ab"]) = joinWith "" (accumulateParts ["a", "b"]) ∧
    postProcessResponse (accumulateParts ["ab"]) =
      postProcessResponse (accumulateParts ["a", "b"]) :=
  c9_chunk_boundary_independence ["ab"] ["a", "b"] (by decide)

/-- Claim C10: the final translated text never contains a carriage return:
the response is split on `\r\n`, `\r` or `\n` and the surviving lines are
rejoined with `\n` only. -/
theorem c10_no_carriage_return (parts : List String) :
    '\r' ∉ (postProcessResponse parts).data := by
  have hlines := splitLines_no_cr (jsTrim (joinWith "" parts))
  have hmid : ∀ s ∈ sliceDropEnds (splitLines (jsTrim (joinWith "" parts))), '\r' ∉ s.data :=
    fun s hs => hlines s (sliceDropEnds_mem hs)
  simpa [postProcessResponse, joinLines] using joinWith_newline_no_cr _ hmid
